import Mathlib

/-!
Verification development for the lachesis repository (crates `laches` and
`laches_mon`): a desktop activity tracker with a per-day usage ledger, a
whitelist/blacklist pattern filter, a multi-machine store and a polling
daemon.  The Rust sources are embedded shallowly: pure functions become Lean
functions, the in-place mutations of `LachesStore` become functions from the
store to the store, the wall clock (`chrono::Local::now()`) becomes an
explicit `today` parameter, and the external `regex` crate becomes an
abstract compilation oracle `String → Option (String → Bool)`.
-/

namespace Laches

/-! ## Character-level string helpers

Rust compares `String`s lexicographically on their UTF-8 bytes; on the ASCII
strings this program compares (ISO dates `YYYY-MM-DD`) that order coincides
with lexicographic order on the list of characters, which is what
`charListLt` computes. -/

/-- Lexicographic strict order on character lists, mirroring Rust's `Ord`
for `String` on ASCII data. -/
def charListLt : List Char → List Char → Bool
  | [], [] => false
  | [], _ :: _ => true
  | _ :: _, [] => false
  | a :: as, b :: bs => if a < b then true else if b < a then false else charListLt as bs

/-- Embeds the Rust comparison `s1 < s2` on `String` (byte-lexicographic;
identical to character-lexicographic on ASCII). -/
def strLt (a b : String) : Bool := charListLt a.data b.data

/-! ## The data model (src/laches/src/store.rs, src/laches/src/process_list.rs)

`daily_usage: HashMap<String, u64>` is embedded as an association list with
first-occurrence lookup and replace-on-insert, the behaviour of `HashMap`
restricted to the states the program builds (one entry per key). -/

/-- Embeds `struct Process` of src/laches/src/store.rs: `title`,
`daily_usage` (date string to accumulated seconds), `tags`, `last_seen`. -/
structure Process where
  title : String
  daily_usage : List (String × Nat)
  tags : List String
  last_seen : String
deriving DecidableEq

/-- Embeds `Process::new` (src/laches/src/store.rs): empty ledger and tags,
`last_seen` set to today. -/
def Process.new (today : String) (title : String) : Process :=
  { title := title, daily_usage := [], tags := [], last_seen := today }

/-- Embeds `HashMap::insert` on the association-list model: replace the value
at the first occurrence of the key, append when absent. -/
def usageInsert (m : List (String × Nat)) (k : String) (v : Nat) : List (String × Nat) :=
  match m with
  | [] => [(k, v)]
  | (k₁, v₁) :: rest => if k₁ == k then (k, v) :: rest else (k₁, v₁) :: usageInsert rest k v

/-- Embeds `Process::get_today_usage` (src/laches/src/store.rs line 92): the
wall-clock date is the explicit `today` argument. -/
def Process.get_today_usage (today : String) (p : Process) : Nat :=
  (p.daily_usage.lookup today).getD 0

/-- Embeds `Process::get_total_usage` (src/laches/src/store.rs line 97):
sum of all values of `daily_usage`. -/
def Process.get_total_usage (p : Process) : Nat :=
  (p.daily_usage.map (·.2)).sum

/-- Embeds `Process::add_time` (src/laches/src/store.rs lines 101-106):
add `seconds` to the entry for today (absent counts as 0) and set
`last_seen` to today. -/
def Process.add_time (today : String) (seconds : Nat) (p : Process) : Process :=
  let current := (p.daily_usage.lookup today).getD 0
  { p with daily_usage := usageInsert p.daily_usage today (current + seconds),
           last_seen := today }

/-- Folding a whole sequence of `add_time` calls made on one day. -/
def Process.add_times (today : String) (amounts : List Nat) (p : Process) : Process :=
  amounts.foldl (fun q s => q.add_time today s) p

/-- Embeds `enum ListMode` of src/laches/src/process_list.rs. -/
inductive ListMode where
  | Whitelist
  | Blacklist
  | Default
deriving DecidableEq

/-- Embeds `struct ProcessListOptions` of src/laches/src/process_list.rs:
`whitelist` and `blacklist` are optional pattern lists (absent is distinct
from empty). -/
structure ProcessListOptions where
  mode : ListMode
  whitelist : Option (List String)
  blacklist : Option (List String)
  tags : Option (List String)
deriving DecidableEq

/-- The `machine_data: HashMap<String, Vec<Process>>` field, embedded as an
association list from machine identifier to process list. -/
abbrev MachineData := List (String × List Process)

/-- Embeds `struct LachesStore` of src/laches/src/store.rs. -/
structure LachesStore where
  daemon_pid : Nat
  autostart : Bool
  update_interval : Nat
  machine_data : MachineData
  process_list_options : ProcessListOptions

/-! ## Pattern matcher (src/laches/src/commands/filtering.rs) -/

/-- Embeds `matches_any_pattern` (src/laches/src/commands/filtering.rs lines
8-21).  The external `regex` crate is abstracted by `compile`: `Regex::new`
returning `Ok(r)` is `compile p = some m` with `m name` the value of
`r.is_match(name)`, and `Regex::new` returning `Err` is `compile p = none`.
Per pattern the code first tests exact equality, then compiles and tests the
regex, short-circuiting on the first hit. -/
def matches_any_pattern (compile : String → Option (String → Bool))
    (process_name : String) (patterns : List String) : Bool :=
  match patterns with
  | [] => false
  | p :: rest =>
    if p == process_name then true
    else
      match compile p with
      | some m => if m process_name then true else matches_any_pattern compile process_name rest
      | none => matches_any_pattern compile process_name rest

/-! ## Store views (src/laches/src/store.rs) -/

/-- First-occurrence lookup on `machine_data`, the association-list model of
`HashMap::get`. -/
def MachineData.lookup (md : MachineData) (k : String) : Option (List Process) :=
  List.lookup k md

/-- Embeds `LachesStore::get_current_machine_processes` (src/laches/src/store.rs
lines 152-158): the current hostname's list, empty when absent. -/
def LachesStore.get_current_machine_processes (hostname : String) (s : LachesStore) :
    List Process :=
  (s.machine_data.lookup hostname).getD []

/-- Embeds `HashMap::entry(hostname).or_default()` (the first half of
`get_current_machine_processes_mut`, src/laches/src/store.rs lines 162-165):
insert an empty list for an unseen hostname, change nothing otherwise. -/
def entryOrDefault (hostname : String) (md : MachineData) : MachineData :=
  if (md.lookup hostname).isSome then md else md ++ [(hostname, [])]

/-- Replacing the process list stored under `hostname`; together with
`entryOrDefault` this embeds an in-place mutation through
`get_current_machine_processes_mut`. -/
def setMachine (hostname : String) (ps : List Process) (md : MachineData) : MachineData :=
  md.map fun e => if e.1 == hostname then (e.1, ps) else e

/-- A mutation of the current machine's process list performed through
`get_current_machine_processes_mut`: materialise the entry, then replace its
list by `f` of it. -/
def modifyMachine (hostname : String) (f : List Process → List Process)
    (md : MachineData) : MachineData :=
  let md₁ := entryOrDefault hostname md
  setMachine hostname (f ((md₁.lookup hostname).getD [])) md₁

/-- Embeds `LachesStore::get_all_processes` (src/laches/src/store.rs lines
168-174): extend an accumulator with every machine's process list, in map
iteration order. -/
def LachesStore.get_all_processes (s : LachesStore) : List Process :=
  s.machine_data.foldl (fun acc e => acc ++ e.2) []

/-! ## Report engine (src/laches/src/commands/list.rs) -/

/-- Embeds the mode test inside the filter of `list_processes`
(src/laches/src/commands/list.rs lines 135-153): Whitelist keeps names
matching the whitelist (absent treated as the empty slice), Blacklist keeps
names not matching the blacklist (absent treated as the empty slice),
Default keeps everything. -/
def passes_mode (compile : String → Option (String → Bool))
    (opts : ProcessListOptions) (title : String) : Bool :=
  match opts.mode with
  | ListMode.Whitelist => matches_any_pattern compile title (opts.whitelist.getD [])
  | ListMode.Blacklist => !matches_any_pattern compile title (opts.blacklist.getD [])
  | ListMode.Default => true

/-- Embeds the tag test inside the filter of `list_processes`
(src/laches/src/commands/list.rs lines 155-159). -/
def passes_tag (tag_filter : Option String) (w : Process) : Bool :=
  match tag_filter with
  | some t => w.tags.any fun x => x == t
  | none => true

/-- Embeds the construction of `filtered_windows` in `list_processes`
(src/laches/src/commands/list.rs lines 131-163). -/
def filtered_windows (compile : String → Option (String → Bool))
    (opts : ProcessListOptions) (tag_filter : Option String)
    (all_windows : List Process) : List Process :=
  all_windows.filter fun w => passes_mode compile opts w.title && passes_tag tag_filter w

/-- Embeds `struct ProcessStats` (src/laches/src/commands/list.rs lines
15-23). -/
structure ProcessStats where
  title : String
  today_usage : Nat
  total_usage : Nat
  active_days : Nat
  avg_per_day : Nat
  tags : List String
deriving DecidableEq

/-- Embeds `ProcessStats::from_process` (src/laches/src/commands/list.rs
lines 26-44). -/
def ProcessStats.from_process (today : String) (p : Process) : ProcessStats :=
  let today_usage := p.get_today_usage today
  let total_usage := p.get_total_usage
  let active_days := p.daily_usage.length
  let avg_per_day := if active_days > 0 then total_usage / active_days else 0
  { title := p.title, today_usage := today_usage, total_usage := total_usage,
    active_days := active_days, avg_per_day := avg_per_day, tags := p.tags }

/-- Embeds the display-usage selection in `list_processes`
(src/laches/src/commands/list.rs lines 168-174): explicit date beats
today-only beats all-time total, absent ledger keys count as 0. -/
def display_usage (date_filter : Option String) (today_only : Bool) (today : String)
    (w : Process) : Nat :=
  match date_filter with
  | some d => (w.daily_usage.lookup d).getD 0
  | none => if today_only then w.get_today_usage today else w.get_total_usage

/-- Embeds the construction of `stats` in `list_processes`
(src/laches/src/commands/list.rs lines 165-185): keep only processes whose
display usage is strictly positive, paired with that usage. -/
def stats_list (compile : String → Option (String → Bool))
    (opts : ProcessListOptions) (tag_filter : Option String)
    (date_filter : Option String) (today_only : Bool) (today : String)
    (all_windows : List Process) : List (ProcessStats × Nat) :=
  (filtered_windows compile opts tag_filter all_windows).filterMap fun w =>
    let u := display_usage date_filter today_only today w
    if u > 0 then some (ProcessStats.from_process today w, u) else none

/-- Embeds `stats.sort_by_key(|(_, usage)| std::cmp::Reverse(*usage))`
(src/laches/src/commands/list.rs line 217): Rust's `sort_by_key` is a stable
sort, so the embedding uses the stable `List.mergeSort` with the key order
reversed (descending usage). -/
def sorted_stats (compile : String → Option (String → Bool))
    (opts : ProcessListOptions) (tag_filter : Option String)
    (date_filter : Option String) (today_only : Bool) (today : String)
    (all_windows : List Process) : List (ProcessStats × Nat) :=
  (stats_list compile opts tag_filter date_filter today_only today all_windows).mergeSort
    fun a b => b.2 ≤ a.2

/-! ## Whitelist/blacklist removal (src/laches/src/commands/filtering.rs) -/

/-- Embeds `remove_from_list` (src/laches/src/commands/filtering.rs lines
157-193), acting on the selected optional pattern list and returning the new
list on success.  An absent list errors with "is empty", a missing pattern
errors with "not found", and a removal that empties the list collapses it to
`none`. -/
def remove_from_list (list : Option (List String)) (pattern : String)
    (is_whitelist : Bool) : Except String (Option (List String)) :=
  let list_name := if is_whitelist then "whitelist" else "blacklist"
  match list with
  | some list_vec =>
    match list_vec.findIdx? (fun p => p == pattern) with
    | some pos =>
      let removed := list_vec.eraseIdx pos
      if removed.isEmpty then Except.ok none else Except.ok (some removed)
    | none => Except.error ("error: '" ++ pattern ++ "' not found in " ++ list_name)
  | none => Except.error ("error: " ++ list_name ++ " is empty")

/-! ## Tag command (src/laches/src/commands/tag.rs)

`str::split(',')`, `str::trim` and the emptiness test are embedded at the
character-list level so that they are kernel-computable; on the ASCII inputs
involved they agree with the Rust operations. -/

/-- Embeds `str::split(sep)` on the character list of a string. -/
def splitOnChar (sep : Char) : List Char → List (List Char)
  | [] => [[]]
  | c :: rest =>
    let r := splitOnChar sep rest
    if c = sep then [] :: r
    else
      match r with
      | [] => [[c]]
      | g :: gs => (c :: g) :: gs

/-- Embeds `str::trim`: drop whitespace from both ends. -/
def trimChars (cs : List Char) : List Char :=
  ((cs.dropWhile Char.isWhitespace).reverse.dropWhile Char.isWhitespace).reverse

/-- Embeds the tag tokenisation of `handle_tag_command`
(src/laches/src/commands/tag.rs lines 33-37 and 48-52): split on commas,
trim each token, drop empty tokens. -/
def splitTags (s : String) : List String :=
  ((splitOnChar ',' s.data).map fun cs => String.mk (trimChars cs)).filter
    fun t => t ≠ ""

/-- Embeds the add-tags loop of `handle_tag_command`
(src/laches/src/commands/tag.rs lines 39-44): append each new tag not
already present. -/
def addTagsToProcess (tags_str : String) (p : Process) : Process :=
  (splitTags tags_str).foldl
    (fun q tag => if tag ∈ q.tags then q else { q with tags := q.tags ++ [tag] }) p

/-- Removing the first occurrence of a tag, `Vec::remove` at
`position(|t| t == &tag)` (src/laches/src/commands/tag.rs lines 54-58). -/
def removeTagOnce (tag : String) (tags : List String) : List String :=
  match tags.findIdx? (fun t => t == tag) with
  | some pos => tags.eraseIdx pos
  | none => tags

/-- Embeds the remove-tags loop of `handle_tag_command`
(src/laches/src/commands/tag.rs lines 47-59). -/
def removeTagsFromProcess (tags_str : String) (p : Process) : Process :=
  (splitTags tags_str).foldl (fun q tag => { q with tags := removeTagOnce tag q.tags }) p

/-- The successful branch of `handle_tag_command`: the found process is
updated in place at its position. -/
def applyTagActions (add_tags remove_tags : Option String) (list_tags : Bool)
    (p : Process) : Process :=
  if list_tags then p
  else
    let p₁ := match add_tags with
      | some ts => addTagsToProcess ts p
      | none => p
    match remove_tags with
    | some ts => removeTagsFromProcess ts p₁
    | none => p₁

/-- In-place update of the element at one position, the effect of mutating
through the reference `iter_mut().find(..)` returned for that position. -/
def listModifyAt (f : Process → Process) : List Process → Nat → List Process
  | [], _ => []
  | a :: as, 0 => f a :: as
  | a :: as, n + 1 => a :: listModifyAt f as n

/-- Embeds `handle_tag_command` (src/laches/src/commands/tag.rs lines 5-63).
The Rust function takes `&mut LachesStore` and returns `Result<()>`; the
embedding returns the outcome together with the store's `machine_data` after
the call (`get_current_machine_processes_mut` has already materialised the
current machine's entry when the process is not found).  Only the first
process whose title matches — the one `find` yields — is updated. -/
def handle_tag_command (hostname : String) (md : MachineData) (process_name : String)
    (add_tags remove_tags : Option String) (list_tags : Bool) :
    Except String Unit × MachineData :=
  let md₁ := entryOrDefault hostname md
  let cur := (md₁.lookup hostname).getD []
  match cur.findIdx? (fun p => p.title == process_name) with
  | none => (Except.error ("error: process '" ++ process_name ++ "' not found"), md₁)
  | some i =>
    let updated := listModifyAt (applyTagActions add_tags remove_tags list_tags) cur i
    (Except.ok (), setMachine hostname updated md₁)

/-! ## Store deletion (src/laches/src/commands/store_management.rs)

The calendar arithmetic `chrono::Local::now() - Duration::days(n)` and the
`%Y-%m-%d` formatting are external library behaviour; they are modelled from
the spec below with the standard civil-calendar day-number conversion. -/

/-- A calendar date, year/month/day. -/
structure Date where
  y : Nat
  m : Nat
  d : Nat
deriving DecidableEq

/-- Modelled from the spec: days-from-civil-date conversion used to realise
the cutoff computation `now - N days` of chrono, which is external to the
repository.  Standard proleptic-Gregorian algorithm, valid for years ≥ 1. -/
def Date.toDayNumber (dt : Date) : Nat :=
  let y := if dt.m ≤ 2 then dt.y - 1 else dt.y
  let era := y / 400
  let yoe := y % 400
  let mp := if dt.m > 2 then dt.m - 3 else dt.m + 9
  let doy := (153 * mp + 2) / 5 + dt.d - 1
  let doe := yoe * 365 + yoe / 4 - yoe / 100 + doy
  era * 146097 + doe

/-- Modelled from the spec: civil-date-from-days, the inverse conversion. -/
def Date.ofDayNumber (z : Nat) : Date :=
  let era := z / 146097
  let doe := z % 146097
  let yoe := (doe - doe / 1460 + doe / 36524 - doe / 146096) / 365
  let y := yoe + era * 400
  let doy := doe - (365 * yoe + yoe / 4 - yoe / 100)
  let mp := (5 * doy + 2) / 153
  let d := doy - (153 * mp + 2) / 5 + 1
  let m := if mp < 10 then mp + 3 else mp - 9
  if m ≤ 2 then { y := y + 1, m := m, d := d } else { y := y, m := m, d := d }

/-- Modelled from the spec: `now - Duration::days(n)` of chrono. -/
def Date.subDays (dt : Date) (n : Nat) : Date :=
  Date.ofDayNumber (dt.toDayNumber - n)

/-- One decimal digit as a character. -/
def digitChar (n : Nat) : Char :=
  if n = 0 then '0' else if n = 1 then '1' else if n = 2 then '2' else if n = 3 then '3'
  else if n = 4 then '4' else if n = 5 then '5' else if n = 6 then '6'
  else if n = 7 then '7' else if n = 8 then '8' else '9'

/-- Modelled from the spec: chrono's `%Y-%m-%d` formatting (zero-padded),
for the 4-digit years this program works with. -/
def Date.format (dt : Date) : String :=
  String.mk [digitChar ((dt.y / 1000) % 10), digitChar ((dt.y / 100) % 10),
    digitChar ((dt.y / 10) % 10), digitChar (dt.y % 10), '-',
    digitChar ((dt.m / 10) % 10), digitChar (dt.m % 10), '-',
    digitChar ((dt.d / 10) % 10), digitChar (dt.d % 10)]

/-- Embeds `str::parse::<i64>` on the character list of a digit string:
an optional sign followed by a nonempty digit sequence (overflow ignored —
the durations this program parses are far below `i64::MAX`). -/
def parseIntChars (cs : List Char) : Option Int :=
  let digitsToNat : List Char → Option Nat := fun ds =>
    if ds ≠ [] ∧ ds.all Char.isDigit then
      some (ds.foldl (fun acc c => acc * 10 + (c.toNat - '0'.toNat)) 0)
    else none
  match cs with
  | '-' :: rest => (digitsToNat rest).map fun n => -(n : Int)
  | '+' :: rest => (digitsToNat rest).map fun n => (n : Int)
  | _ => (digitsToNat cs).map fun n => (n : Int)

/-- Embeds `parse_duration` (src/laches/src/commands/store_management.rs
lines 162-177): the string must end with the letter d, the front must parse
as an integer, and the value must be strictly positive. -/
def parse_duration (duration_str : String) : Except String Int :=
  if duration_str.data.getLast? ≠ some 'd' then
    Except.error "error: duration must be in format like '7d', '30d', etc."
  else
    match parseIntChars duration_str.data.dropLast with
    | none => Except.error "error: invalid duration value"
    | some days =>
      if days ≤ 0 then Except.error "error: duration must be a positive number"
      else Except.ok days

/-- Embeds the per-process ledger pruning of the `--duration` branch of
`confirm_delete_store` (src/laches/src/commands/store_management.rs lines
57-70): drop the entries whose date compares strictly below the cutoff
string. -/
def deleteOlderThan (cutoff : String) (p : Process) : Process :=
  { p with daily_usage := p.daily_usage.filter fun e => !(strLt e.1 cutoff) }

/-- The number of ledger entries the same branch removes from one process. -/
def countOlderThan (cutoff : String) (p : Process) : Nat :=
  p.daily_usage.countP fun e => strLt e.1 cutoff

/-- Embeds the confirmed `--duration` branch of `confirm_delete_store`
(src/laches/src/commands/store_management.rs lines 46-78): parse the
retention window, compute the cutoff date `now - days`, prune every current
machine process's ledger, and report the number of removed records. -/
def confirm_delete_store_duration (hostname : String) (today : Date)
    (duration_str : String) (md : MachineData) : Except String (MachineData × Nat) :=
  match parse_duration duration_str with
  | Except.error e => Except.error e
  | Except.ok days =>
    let cutoff_str := (today.subDays days.toNat).format
    let cur := ((entryOrDefault hostname md).lookup hostname).getD []
    Except.ok (modifyMachine hostname (List.map (deleteOlderThan cutoff_str)) md,
      (cur.map (countOlderThan cutoff_str)).sum)

/-- Embeds the confirmed `--all` branch of `confirm_delete_store`
(src/laches/src/commands/store_management.rs lines 32-45): clear every
current machine process's `daily_usage`. -/
def confirm_delete_store_all (hostname : String) (md : MachineData) : MachineData :=
  modifyMachine hostname (List.map fun p => { p with daily_usage := [] }) md

/-! ## The monitoring daemon's tick (src/laches_mon/src/main.rs)

`laches_mon` still compiles against the crate's old data model
(src/laches/src/lib.rs): a `Process` is a `title` with a flat millisecond
`uptime` counter and the store keeps one global `process_information` list —
there is no daily ledger in that model at all. -/

/-- Embeds the old `struct Process` of src/laches/src/lib.rs lines 5-9. -/
structure OldProcess where
  title : String
  uptime : Nat
deriving DecidableEq

/-- One active process's treatment inside `tick` (src/laches_mon/src/main.rs
lines 18-32): find the first stored entry with the same title and add
`update_interval.as_millis()` to its `uptime`. -/
def bumpFirst (millis : Nat) (title : String) :
    List OldProcess → Option (List OldProcess)
  | [] => none
  | p :: rest =>
    if p.title == title then some ({ p with uptime := p.uptime + millis } :: rest)
    else (bumpFirst millis title rest).map fun r => p :: r

/-- Embeds `tick` (src/laches_mon/src/main.rs lines 11-43) minus the file
I/O: for each active process, bump the uptime of the stored entry with the
same title by `update_interval.as_millis()` (the interval was built with
`Duration::from_secs`, hence the factor 1000), or append the active process
(whose `uptime` is 0 from `get_active_processes`) when none matches. -/
def tick (update_interval_secs : Nat) (active : List OldProcess)
    (process_information : List OldProcess) : List OldProcess :=
  active.foldl
    (fun st ap =>
      match bumpFirst (update_interval_secs * 1000) ap.title st with
      | some st₂ => st₂
      | none => st ++ [ap])
    process_information

/-! ## Theorems -/

/-- Helper: `matches_any_pattern` is true exactly when some pattern in the
list is the name itself or compiles to a regex matching the name. -/
theorem matches_any_pattern_iff (compile : String → Option (String → Bool))
    (name : String) (patterns : List String) :
    matches_any_pattern compile name patterns = true ↔
      ∃ p ∈ patterns, p = name ∨ ∃ m, compile p = some m ∧ m name = true := by
  induction patterns with
  | nil => simp [matches_any_pattern]
  | cons p rest ih =>
    simp only [matches_any_pattern]
    by_cases heq : p = name
    · simp [heq]
    · have hbeq : (p == name) = false := by
        simpa [beq_iff_eq] using heq
      rw [hbeq]
      simp only [Bool.false_eq_true, if_false]
      cases hc : compile p with
      | none =>
        rw [ih]
        constructor
        · rintro ⟨q, hq, h⟩
          exact ⟨q, List.mem_cons_of_mem _ hq, h⟩
        · rintro ⟨q, hq, h⟩
          rcases List.mem_cons.mp hq with rfl | hq₂
          · rcases h with h | ⟨m, hm, _⟩
            · exact absurd h heq
            · rw [hc] at hm; cases hm
          · exact ⟨q, hq₂, h⟩
      | some m =>
        by_cases hm : m name = true
        · simp only [hm, if_true, true_iff]
          exact ⟨p, List.mem_cons_self _ _, Or.inr ⟨m, hc, hm⟩⟩
        · have hmf : m name = false := by simpa using hm
          simp only [hmf, Bool.false_eq_true, if_false]
          rw [ih]
          constructor
          · rintro ⟨q, hq, h⟩
            exact ⟨q, List.mem_cons_of_mem _ hq, h⟩
          · rintro ⟨q, hq, h⟩
            rcases List.mem_cons.mp hq with rfl | hq₂
            · rcases h with h | ⟨m₂, hm₂, hmn⟩
              · exact absurd h heq
              · rw [hc] at hm₂
                cases hm₂
                exact absurd hmn hm
            · exact ⟨q, hq₂, h⟩

/-- C1: `matches_any_pattern(n, P)` returns true iff `n` equals some `p ∈ P`
exactly or some `p ∈ P` compiles as a regex matching somewhere in `n`; it
returns false on the empty pattern list; a pattern that fails to compile
(`compile p = none`) contributes nothing beyond the exact-equality test and
never raises (the function is total). -/
theorem matches_any_pattern_spec (compile : String → Option (String → Bool))
    (name : String) (patterns : List String) :
    (matches_any_pattern compile name patterns = true ↔
      ∃ p ∈ patterns, p = name ∨ ∃ m, compile p = some m ∧ m name = true) ∧
    matches_any_pattern compile name [] = false := by
  exact ⟨matches_any_pattern_iff compile name patterns, rfl⟩

/-- Helper: inserting at a key makes lookup at that key yield the inserted
value. -/
theorem lookup_usageInsert_self (m : List (String × Nat)) (k : String) (v : Nat) :
    List.lookup k (usageInsert m k v) = some v := by
  induction m with
  | nil => simp [usageInsert, List.lookup]
  | cons e rest ih =>
    obtain ⟨k₁, v₁⟩ := e
    by_cases h : k₁ = k
    · subst h
      simp [usageInsert, List.lookup]
    · have h₁ : (k₁ == k) = false := by simpa [beq_iff_eq] using h
      have h₂ : (k == k₁) = false := by simpa [beq_iff_eq] using Ne.symm h
      simp [usageInsert, h₁, List.lookup, h₂, ih]

/-- Helper: inserting at a key leaves lookup at every other key unchanged. -/
theorem lookup_usageInsert_other (m : List (String × Nat)) (k : String) (v : Nat)
    (d : String) (h : d ≠ k) :
    List.lookup d (usageInsert m k v) = List.lookup d m := by
  have hdk : (d == k) = false := by simpa [beq_iff_eq] using h
  induction m with
  | nil => simp [usageInsert, List.lookup, hdk]
  | cons e rest ih =>
    obtain ⟨k₁, v₁⟩ := e
    by_cases hk : k₁ = k
    · subst hk
      simp [usageInsert, List.lookup, hdk]
    · have hk₁ : (k₁ == k) = false := by simpa [beq_iff_eq] using hk
      by_cases hd : d = k₁
      · subst hd
        simp [usageInsert, hk₁, List.lookup]
      · have hd₁ : (d == k₁) = false := by simpa [beq_iff_eq] using hd
        simp [usageInsert, hk₁, List.lookup, hd₁, ih]

/-- Helper: inserting the looked-up value plus `s` raises the ledger's value
sum by exactly `s`. -/
theorem sum_usageInsert (m : List (String × Nat)) (k : String) (s : Nat) :
    ((usageInsert m k ((List.lookup k m).getD 0 + s)).map (·.2)).sum =
      (m.map (·.2)).sum + s := by
  induction m with
  | nil => simp [usageInsert, List.lookup]
  | cons e rest ih =>
    obtain ⟨k₁, v₁⟩ := e
    by_cases h : k₁ = k
    · subst h
      simp only [usageInsert, beq_self_eq_true, if_true, List.lookup,
        List.map_cons, List.sum_cons, Option.getD_some]
      omega
    · have h₁ : (k₁ == k) = false := by simpa [beq_iff_eq] using h
      have h₂ : (k == k₁) = false := by simpa [beq_iff_eq] using Ne.symm h
      simp only [usageInsert, h₁, Bool.false_eq_true, if_false, List.lookup, h₂,
        List.map_cons, List.sum_cons]
      rw [ih]
      omega

/-- Helper: one `add_time` call raises today's usage by its argument. -/
theorem get_today_usage_add_time (today : String) (s : Nat) (p : Process) :
    (p.add_time today s).get_today_usage today = p.get_today_usage today + s := by
  simp [Process.add_time, Process.get_today_usage, lookup_usageInsert_self]

/-- Helper: one `add_time` call raises the all-time total by its argument. -/
theorem get_total_usage_add_time (today : String) (s : Nat) (p : Process) :
    (p.add_time today s).get_total_usage = p.get_total_usage + s := by
  simpa [Process.add_time, Process.get_total_usage] using
    sum_usageInsert p.daily_usage today s

/-- Helper: a sequence of same-day `add_time` calls raises today's usage by
the sum of the amounts. -/
theorem get_today_usage_add_times (today : String) (amounts : List Nat) (p : Process) :
    (p.add_times today amounts).get_today_usage today =
      p.get_today_usage today + amounts.sum := by
  induction amounts generalizing p with
  | nil => simp [Process.add_times]
  | cons s rest ih =>
    have : (p.add_times today (s :: rest)) = ((p.add_time today s).add_times today rest) := rfl
    rw [this, ih, get_today_usage_add_time]
    simp [Nat.add_assoc]

/-- Helper: a sequence of same-day `add_time` calls raises the all-time
total by the sum of the amounts. -/
theorem get_total_usage_add_times (today : String) (amounts : List Nat) (p : Process) :
    (p.add_times today amounts).get_total_usage = p.get_total_usage + amounts.sum := by
  induction amounts generalizing p with
  | nil => simp [Process.add_times]
  | cons s rest ih =>
    have : (p.add_times today (s :: rest)) = ((p.add_time today s).add_times today rest) := rfl
    rw [this, ih, get_total_usage_add_time]
    simp [Nat.add_assoc]

/-- C2: each `add_time` call adds its argument to `daily_usage[today]`
(absent key counting as 0), sets `last_seen` to today and touches no other
ledger date and no other field; after any same-day sequence of calls,
`get_today_usage` equals the sum of the amounts added that day (starting
from a day with no recorded usage) and `get_total_usage` equals the sum of
`daily_usage` over all days, growing by exactly the amounts added. -/
theorem add_time_spec (p : Process) (today : String) (s : Nat) (amounts : List Nat) :
    (p.add_time today s).daily_usage.lookup today =
        some ((p.daily_usage.lookup today).getD 0 + s) ∧
    (p.add_time today s).last_seen = today ∧
    (∀ d, d ≠ today → (p.add_time today s).daily_usage.lookup d =
        p.daily_usage.lookup d) ∧
    (p.add_time today s).title = p.title ∧
    (p.add_time today s).tags = p.tags ∧
    (p.add_times today amounts).get_total_usage = p.get_total_usage + amounts.sum ∧
    (p.get_today_usage today = 0 →
      (p.add_times today amounts).get_today_usage today = amounts.sum) := by
  refine ⟨?_, rfl, ?_, rfl, rfl, get_total_usage_add_times today amounts p, ?_⟩
  · simpa [Process.add_time] using lookup_usageInsert_self p.daily_usage today _
  · intro d hd
    simpa [Process.add_time] using
      lookup_usageInsert_other p.daily_usage today _ d hd
  · intro h0
    rw [get_today_usage_add_times, h0, Nat.zero_add]

/-- Witness for C2 at a concrete process: 100 then 50 then 25 seconds added
on 2024-01-02 to a process that had 200 seconds on 2024-01-01 and nothing
yet today. -/
theorem add_time_spec_witness :
    ((Process.mk "x" [("2024-01-01", 200)] [] "2024-01-01").get_today_usage
        "2024-01-02" = 0) ∧
    ((Process.mk "x" [("2024-01-01", 200)] [] "2024-01-01").add_times "2024-01-02"
        [100, 50, 25]).get_today_usage "2024-01-02" = 175 ∧
    ((Process.mk "x" [("2024-01-01", 200)] [] "2024-01-01").add_times "2024-01-02"
        [100, 50, 25]).get_total_usage = 375 ∧
    ((Process.mk "x" [("2024-01-01", 200)] [] "2024-01-01").add_time "2024-01-02"
        100).daily_usage.lookup "2024-01-01" = some 200 := by
  have h := add_time_spec (Process.mk "x" [("2024-01-01", 200)] [] "2024-01-01")
    "2024-01-02" 100 [100, 50, 25]
  refine ⟨by decide, ?_, ?_, ?_⟩
  · exact h.2.2.2.2.2.2 (by decide)
  · have := h.2.2.2.2.2.1
    rw [this]; decide
  · have := h.2.2.1 "2024-01-01" (by decide)
    rw [this]; decide

/-- C3 (the daemon's tick, src/laches_mon/src/main.rs lines 11-43, evaluated
at the failing input): with a 5 second update interval, an active list
containing a stored title "a" and a fresh title "b", and one stored entry
for "a", the tick adds 5000 — `as_millis()` of the interval — to the flat
`uptime` counter of "a" (the old data model has no daily ledger for
`add_time` to touch) and appends "b" with `uptime` 0 instead of calling
`add_time(5)` on it. -/
theorem tick_failing_input :
    tick 5 [OldProcess.mk "a" 0, OldProcess.mk "b" 0] [OldProcess.mk "a" 0] =
      [OldProcess.mk "a" 5000, OldProcess.mk "b" 0] := by
  decide

/-- Helper: folding list concatenation from an accumulator. -/
theorem foldl_append_eq_join (l : List (String × List Process))
    (acc : List Process) :
    l.foldl (fun acc e => acc ++ e.2) acc = acc ++ (l.map (·.2)).flatten := by
  induction l generalizing acc with
  | nil => simp
  | cons e rest ih => simp [ih, List.append_assoc]

/-- C9: `get_all_processes` concatenates every machine's process list with
no de-duplication or merging by title — for any predicate the number of
matching entries is the sum over machines, and in the two-machine scenario
with "shared.exe" at usage 50 on machine A and 70 on machine B the result
holds two distinct entries with their own ledgers, not one entry of 120. -/
theorem get_all_processes_spec :
    (∀ s : LachesStore, s.get_all_processes = (s.machine_data.map (·.2)).flatten) ∧
    (∀ (s : LachesStore) (pred : Process → Bool),
      s.get_all_processes.countP pred =
        (s.machine_data.map fun e => e.2.countP pred).sum) ∧
    ((LachesStore.mk 0 true 5
        [("A", [Process.mk "shared.exe" [("2024-01-01", 50)] [] "2024-01-01"]),
         ("B", [Process.mk "shared.exe" [("2024-01-01", 70)] [] "2024-01-01"])]
        (ProcessListOptions.mk ListMode.Default none none none)).get_all_processes =
      [Process.mk "shared.exe" [("2024-01-01", 50)] [] "2024-01-01",
       Process.mk "shared.exe" [("2024-01-01", 70)] [] "2024-01-01"]) ∧
    ((LachesStore.mk 0 true 5
        [("A", [Process.mk "shared.exe" [("2024-01-01", 50)] [] "2024-01-01"]),
         ("B", [Process.mk "shared.exe" [("2024-01-01", 70)] [] "2024-01-01"])]
        (ProcessListOptions.mk ListMode.Default none none none)).get_all_processes.map
      Process.get_total_usage = [50, 70]) := by
  have hjoin : ∀ s : LachesStore,
      s.get_all_processes = (s.machine_data.map (·.2)).flatten := by
    intro s
    simpa using foldl_append_eq_join s.machine_data []
  refine ⟨hjoin, ?_, by decide, by decide⟩
  intro s pred
  rw [hjoin]
  rw [List.countP_flatten]
  rw [List.map_map]
  rfl

/-- C4: the report engine keeps a title in Whitelist mode iff it matches a
whitelist pattern (absent whitelist = empty list, so nothing is kept), in
Blacklist mode iff it matches no blacklist pattern (absent blacklist keeps
everything), and always in Default mode; with mode Blacklist and blacklist
`["chrome.exe"]`, of the processes `chrome.exe` and `code.exe` only
`code.exe` survives. -/
theorem list_processes_mode_filter_spec (compile : String → Option (String → Bool))
    (opts : ProcessListOptions) (all_windows : List Process) :
    (∀ w, w ∈ filtered_windows compile opts none all_windows ↔
      w ∈ all_windows ∧ passes_mode compile opts w.title = true) ∧
    (opts.mode = ListMode.Whitelist → ∀ t, passes_mode compile opts t =
      matches_any_pattern compile t (opts.whitelist.getD [])) ∧
    (opts.mode = ListMode.Whitelist → opts.whitelist = none →
      ∀ t, passes_mode compile opts t = false) ∧
    (opts.mode = ListMode.Blacklist → ∀ t, passes_mode compile opts t =
      !matches_any_pattern compile t (opts.blacklist.getD [])) ∧
    (opts.mode = ListMode.Blacklist → opts.blacklist = none →
      ∀ t, passes_mode compile opts t = true) ∧
    (opts.mode = ListMode.Default → ∀ t, passes_mode compile opts t = true) ∧
    ((∀ m, compile "chrome.exe" = some m → m "code.exe" = false) →
      filtered_windows compile
        (ProcessListOptions.mk ListMode.Blacklist none (some ["chrome.exe"]) none) none
        [Process.mk "chrome.exe" [("2024-01-01", 100)] [] "2024-01-01",
         Process.mk "code.exe" [("2024-01-01", 100)] [] "2024-01-01"] =
        [Process.mk "code.exe" [("2024-01-01", 100)] [] "2024-01-01"]) := by
  refine ⟨?_, ?_, ?_, ?_, ?_, ?_, ?_⟩
  · intro w
    simp [filtered_windows, List.mem_filter, passes_tag]
  · intro h t
    simp [passes_mode, h]
  · intro h hw t
    simp [passes_mode, h, hw, matches_any_pattern]
  · intro h t
    simp [passes_mode, h]
  · intro h hb t
    simp [passes_mode, h, hb, matches_any_pattern]
  · intro h t
    simp [passes_mode, h]
  · intro hc
    have hchrome : passes_mode compile
        (ProcessListOptions.mk ListMode.Blacklist none (some ["chrome.exe"]) none)
        "chrome.exe" = false := by
      simp [passes_mode, matches_any_pattern]
    have hbeq : (("chrome.exe" : String) == "code.exe") = false := by decide
    have hcode : passes_mode compile
        (ProcessListOptions.mk ListMode.Blacklist none (some ["chrome.exe"]) none)
        "code.exe" = true := by
      simp only [passes_mode, Option.getD_some]
      cases hcc : compile "chrome.exe" with
      | none => simp [matches_any_pattern, hcc, hbeq]
      | some m =>
        have hm := hc m hcc
        simp [matches_any_pattern, hcc, hbeq, hm]
    simp [filtered_windows, List.filter, hchrome, hcode, passes_tag]

/-- Witness for C4 at a compilation oracle rejecting every pattern and the
concrete blacklist scenario. -/
theorem list_processes_mode_filter_witness :
    filtered_windows (fun _ => none)
      (ProcessListOptions.mk ListMode.Blacklist none (some ["chrome.exe"]) none) none
      [Process.mk "chrome.exe" [("2024-01-01", 100)] [] "2024-01-01",
       Process.mk "code.exe" [("2024-01-01", 100)] [] "2024-01-01"] =
      [Process.mk "code.exe" [("2024-01-01", 100)] [] "2024-01-01"] := by
  exact (list_processes_mode_filter_spec (fun _ => none)
    (ProcessListOptions.mk ListMode.Blacklist none (some ["chrome.exe"]) none)
    []).2.2.2.2.2.2 (fun m hm => by cases hm)

/-- Helper: the descending-usage comparison is transitive. -/
theorem usageLe_trans (a b c : ProcessStats × Nat) :
    (decide (b.2 ≤ a.2)) = true → (decide (c.2 ≤ b.2)) = true →
    (decide (c.2 ≤ a.2)) = true := by
  simp only [decide_eq_true_eq]
  omega

/-- Helper: the descending-usage comparison is total. -/
theorem usageLe_total (a b : ProcessStats × Nat) :
    ((decide (b.2 ≤ a.2)) || (decide (a.2 ≤ b.2))) = true := by
  rcases Nat.le_total b.2 a.2 with h | h <;> simp [h]

/-- C5: the report engine computes display usage with priority explicit
date, then today-only, then all-time total (absent keys count 0), keeps
exactly the processes whose display usage is strictly positive, and orders
the survivors by display usage descending with a stable sort: an equal-usage
pair in encounter order stays in that order. -/
theorem list_processes_ranking_spec (compile : String → Option (String → Bool))
    (opts : ProcessListOptions) (tag_filter date_filter : Option String)
    (today_only : Bool) (today : String) (all_windows : List Process) :
    (∀ w d, display_usage (some d) today_only today w =
      (w.daily_usage.lookup d).getD 0) ∧
    (∀ w, display_usage none true today w = w.get_today_usage today) ∧
    (∀ w, display_usage none false today w = w.get_total_usage) ∧
    (∀ x, x ∈ stats_list compile opts tag_filter date_filter today_only today all_windows ↔
      ∃ w ∈ filtered_windows compile opts tag_filter all_windows,
        display_usage date_filter today_only today w > 0 ∧
        x = (ProcessStats.from_process today w, display_usage date_filter today_only today w)) ∧
    (sorted_stats compile opts tag_filter date_filter today_only today all_windows).Perm
      (stats_list compile opts tag_filter date_filter today_only today all_windows) ∧
    List.Pairwise (fun a b : ProcessStats × Nat => b.2 ≤ a.2)
      (sorted_stats compile opts tag_filter date_filter today_only today all_windows) ∧
    (∀ a b : ProcessStats × Nat, a.2 = b.2 →
      [a, b].Sublist (stats_list compile opts tag_filter date_filter today_only today all_windows) →
      [a, b].Sublist (sorted_stats compile opts tag_filter date_filter today_only today all_windows)) := by
  refine ⟨fun w d => rfl, fun w => rfl, fun w => rfl, ?_, ?_, ?_, ?_⟩
  · intro x
    simp only [stats_list, List.mem_filterMap]
    constructor
    · rintro ⟨w, hw, hx⟩
      by_cases h : display_usage date_filter today_only today w > 0
      · simp only [h, if_true] at hx
        cases hx
        exact ⟨w, hw, h, rfl⟩
      · simp only [h, if_false] at hx
        cases hx
    · rintro ⟨w, hw, h, rfl⟩
      exact ⟨w, hw, by simp [h]⟩
  · exact List.mergeSort_perm _ _
  · have h := List.sorted_mergeSort usageLe_trans usageLe_total
      (stats_list compile opts tag_filter date_filter today_only today all_windows)
    exact h.imp fun {a b} hab => by simpa using hab
  · intro a b hab hsub
    refine List.sublist_mergeSort usageLe_trans usageLe_total ?_ hsub
    simp [List.pairwise_cons, hab.symm.le]

/-- Witness for C5: two processes with equal positive usage and one with
zero usage; the zero one is dropped and the tie keeps encounter order in the
sorted output. -/
theorem list_processes_ranking_witness :
    [(ProcessStats.mk "p1" 0 5 1 5 [], 5), (ProcessStats.mk "p3" 0 5 1 5 [], 5)].Sublist
      (sorted_stats (fun _ => none)
        (ProcessListOptions.mk ListMode.Default none none none) none none false
        "2024-01-02"
        [Process.mk "p1" [("2024-01-01", 5)] [] "2024-01-01",
         Process.mk "p2" [] [] "2024-01-01",
         Process.mk "p3" [("2024-01-01", 5)] [] "2024-01-01"]) := by
  have h := (list_processes_ranking_spec (fun _ => none)
    (ProcessListOptions.mk ListMode.Default none none none) none none false
    "2024-01-02"
    [Process.mk "p1" [("2024-01-01", 5)] [] "2024-01-01",
     Process.mk "p2" [] [] "2024-01-01",
     Process.mk "p3" [("2024-01-01", 5)] [] "2024-01-01"]).2.2.2.2.2.2
  apply h _ _ (by decide)
  have hs : stats_list (fun _ => none)
      (ProcessListOptions.mk ListMode.Default none none none) none none false
      "2024-01-02"
      [Process.mk "p1" [("2024-01-01", 5)] [] "2024-01-01",
       Process.mk "p2" [] [] "2024-01-01",
       Process.mk "p3" [("2024-01-01", 5)] [] "2024-01-01"] =
      [(ProcessStats.mk "p1" 0 5 1 5 [], 5), (ProcessStats.mk "p3" 0 5 1 5 [], 5)] := by
    decide
  rw [hs]

/-- C6: removing a pattern errors with "is empty" when the list is absent
and with "not found" when the pattern is not present; a successful removal
never leaves a present-but-empty list — removing the last remaining pattern
collapses the field to absent. -/
theorem remove_from_list_spec :
    (∀ (pattern : String) (is_whitelist : Bool),
      remove_from_list none pattern is_whitelist = Except.error
        ("error: " ++ (if is_whitelist then "whitelist" else "blacklist") ++ " is empty")) ∧
    (∀ (l : List String) (pattern : String) (is_whitelist : Bool), pattern ∉ l →
      remove_from_list (some l) pattern is_whitelist = Except.error
        ("error: '" ++ pattern ++ "' not found in " ++
          (if is_whitelist then "whitelist" else "blacklist"))) ∧
    (∀ (l : List String) (pattern : String) (is_whitelist : Bool)
      (r : Option (List String)),
      remove_from_list (some l) pattern is_whitelist = Except.ok r → r ≠ some []) ∧
    (∀ (pattern : String) (is_whitelist : Bool),
      remove_from_list (some [pattern]) pattern is_whitelist = Except.ok none) := by
  refine ⟨fun pattern w => rfl, ?_, ?_, ?_⟩
  · intro l pattern w h
    have hidx : l.findIdx? (fun p => p == pattern) = none := by
      rw [List.findIdx?_eq_none_iff]
      intro x hx
      have : x ≠ pattern := fun he => h (he ▸ hx)
      simpa [beq_iff_eq] using this
    simp [remove_from_list, hidx]
  · intro l pattern w r h
    simp only [remove_from_list] at h
    cases hidx : l.findIdx? (fun p => p == pattern) with
    | none => rw [hidx] at h; cases h
    | some pos =>
      rw [hidx] at h
      by_cases hemp : (l.eraseIdx pos).isEmpty = true
      · simp only [hemp, if_true] at h
        cases h
        exact fun he => by cases he
      · simp only [hemp, if_false] at h
        cases h
        intro he
        have he₂ : l.eraseIdx pos = [] := by injection he
        simp [he₂] at hemp
  · intro pattern w
    simp [remove_from_list, List.findIdx?, List.eraseIdx]

/-- Witness for C6: removing from an absent list, removing a missing
pattern, and removing the last pattern of a singleton whitelist. -/
theorem remove_from_list_witness :
    remove_from_list none "x" true = Except.error "error: whitelist is empty" ∧
    remove_from_list (some ["a"]) "x" true =
      Except.error "error: 'x' not found in whitelist" ∧
    remove_from_list (some ["only_one"]) "only_one" true = Except.ok none ∧
    (some ["b"] : Option (List String)) ≠ some [] := by
  refine ⟨remove_from_list_spec.1 "x" true, ?_, remove_from_list_spec.2.2.2 "only_one" true, ?_⟩
  · have h := remove_from_list_spec.2.1 ["a"] "x" true (by decide)
    rw [h]
    rfl
  · exact remove_from_list_spec.2.2.1 ["a", "b"] "a" true (some ["b"]) (by rfl)

/-- Helper: materialising the current machine's entry does not change the
list it holds (an absent machine reads as the empty list either way). -/
theorem lookup_entryOrDefault_getD (hostname : String) (md : MachineData) :
    ((entryOrDefault hostname md).lookup hostname).getD [] =
      (md.lookup hostname).getD [] := by
  cases hs : (md.lookup hostname).isSome with
  | true => simp [entryOrDefault, hs]
  | false =>
    have h0 : List.lookup hostname md = none := by
      simpa [MachineData.lookup, Option.isSome_iff_exists] using hs
    simp only [entryOrDefault, hs, Bool.false_eq_true, if_false]
    show (List.lookup hostname (md ++ [(hostname, [])])).getD [] = _
    rw [List.lookup_append]
    simp [MachineData.lookup, h0, List.lookup]

/-- Helper: after materialising, the current machine's entry is present. -/
theorem lookup_entryOrDefault_isSome (hostname : String) (md : MachineData) :
    ((entryOrDefault hostname md).lookup hostname).isSome = true := by
  cases hs : (md.lookup hostname).isSome with
  | true => simp [entryOrDefault, hs]
  | false =>
    have h0 : List.lookup hostname md = none := by
      simpa [MachineData.lookup, Option.isSome_iff_exists] using hs
    simp only [entryOrDefault, hs, Bool.false_eq_true, if_false]
    show (List.lookup hostname (md ++ [(hostname, [])])).isSome = true
    rw [List.lookup_append]
    simp [h0, List.lookup]

/-- Helper: materialising the current machine's entry preserves every entry
that was present. -/
theorem lookup_entryOrDefault_preserve (hostname m : String) (md : MachineData)
    (l : List Process) (h : md.lookup m = some l) :
    (entryOrDefault hostname md).lookup m = some l := by
  cases hs : (md.lookup hostname).isSome with
  | true => simpa [entryOrDefault, hs] using h
  | false =>
    have h1 : List.lookup m md = some l := h
    simp only [entryOrDefault, hs, Bool.false_eq_true, if_false]
    show List.lookup m (md ++ [(hostname, [])]) = some l
    rw [List.lookup_append]
    simp [h1]

/-- Helper: materialising the current machine's entry changes no other
machine's entry. -/
theorem lookup_entryOrDefault_other (hostname m : String) (md : MachineData)
    (h : m ≠ hostname) :
    (entryOrDefault hostname md).lookup m = md.lookup m := by
  cases hs : (md.lookup hostname).isSome with
  | true => simp [entryOrDefault, hs]
  | false =>
    have hbeq : (m == hostname) = false := by simpa [beq_iff_eq] using h
    simp only [entryOrDefault, hs, Bool.false_eq_true, if_false]
    show List.lookup m (md ++ [(hostname, [])]) = md.lookup m
    rw [List.lookup_append]
    simp [List.lookup, hbeq, MachineData.lookup]

/-- Helper: replacing a present machine's list makes lookup yield the new
list. -/
theorem lookup_setMachine_self (hostname : String) (ps : List Process)
    (md : MachineData) (h : (md.lookup hostname).isSome = true) :
    (setMachine hostname ps md).lookup hostname = some ps := by
  induction md with
  | nil => simp [MachineData.lookup, List.lookup] at h
  | cons e rest ih =>
    obtain ⟨k, v⟩ := e
    by_cases hk : k = hostname
    · subst hk
      have h1 : setMachine k ps ((k, v) :: rest) = (k, ps) :: setMachine k ps rest := by
        simp [setMachine]
      rw [h1]
      simp [MachineData.lookup, List.lookup]
    · have hk₁ : (k == hostname) = false := by simpa [beq_iff_eq] using hk
      have hk₂ : (hostname == k) = false := by simpa [beq_iff_eq] using Ne.symm hk
      have h1 : setMachine hostname ps ((k, v) :: rest) =
          (k, v) :: setMachine hostname ps rest := by
        simp [setMachine, hk₁, hk]
      rw [h1]
      simp only [MachineData.lookup, List.lookup, hk₂] at h ⊢
      exact ih h

/-- Helper: replacing one machine's list changes no other machine's entry. -/
theorem lookup_setMachine_other (hostname m : String) (ps : List Process)
    (md : MachineData) (h : m ≠ hostname) :
    (setMachine hostname ps md).lookup m = md.lookup m := by
  induction md with
  | nil => simp [setMachine, MachineData.lookup]
  | cons e rest ih =>
    obtain ⟨k, v⟩ := e
    by_cases hk : k = hostname
    · subst hk
      have hm : (m == k) = false := by simpa [beq_iff_eq] using h
      have h1 : setMachine k ps ((k, v) :: rest) = (k, ps) :: setMachine k ps rest := by
        simp [setMachine]
      rw [h1]
      simp only [MachineData.lookup, List.lookup, hm]
      exact ih
    · have hk₁ : (k == hostname) = false := by simpa [beq_iff_eq] using hk
      have h1 : setMachine hostname ps ((k, v) :: rest) =
          (k, v) :: setMachine hostname ps rest := by
        simp [setMachine, hk₁, hk]
      rw [h1]
      by_cases hm : m = k
      · subst hm
        simp [MachineData.lookup, List.lookup]
      · have hm₁ : (m == k) = false := by simpa [beq_iff_eq] using hm
        simp only [MachineData.lookup, List.lookup, hm₁]
        exact ih

/-- Helper: a mutation through `get_current_machine_processes_mut` applies
`f` to the current machine's list (absent reading as empty). -/
theorem lookup_modifyMachine_self (hostname : String) (f : List Process → List Process)
    (md : MachineData) :
    (modifyMachine hostname f md).lookup hostname =
      some (f ((md.lookup hostname).getD [])) := by
  have h₁ := lookup_entryOrDefault_isSome hostname md
  have h₂ := lookup_entryOrDefault_getD hostname md
  simp only [modifyMachine]
  rw [lookup_setMachine_self _ _ _ h₁, h₂]

/-- Helper: a mutation through `get_current_machine_processes_mut` changes
no other machine's entry. -/
theorem lookup_modifyMachine_other (hostname m : String)
    (f : List Process → List Process) (md : MachineData) (h : m ≠ hostname) :
    (modifyMachine hostname f md).lookup m = md.lookup m := by
  simp only [modifyMachine]
  rw [lookup_setMachine_other _ _ _ _ h, lookup_entryOrDefault_other _ _ _ h]

/-- Helper: keeping the not-older entries and counting the older ones
accounts for every ledger entry. -/
theorem filter_length_add_countP (l : List (String × Nat)) (pred : String × Nat → Bool) :
    (l.filter fun e => !pred e).length + l.countP pred = l.length := by
  induction l with
  | nil => simp
  | cons a as ih =>
    by_cases h : pred a = true <;>
      simp only [List.filter_cons, List.countP_cons, h, Bool.not_true, Bool.not_false,
        Bool.false_eq_true, if_false, if_true, List.length_cons] <;> omega

/-- C7: a confirmed delete-by-age of `N` days computes the cutoff date
`today - N` days and removes from every current machine process's ledger
exactly the entries whose date is strictly older than the cutoff, keeps all
others and every other field, leaves other machines alone, and reports the
number of removed entries. -/
theorem confirm_delete_store_duration_spec (hostname : String) (today : Date)
    (duration_str : String) (days : Int) (md : MachineData)
    (h : parse_duration duration_str = Except.ok days) :
    confirm_delete_store_duration hostname today duration_str md = Except.ok
      (modifyMachine hostname
        (List.map (deleteOlderThan (today.subDays days.toNat).format)) md,
       ((((entryOrDefault hostname md).lookup hostname).getD []).map
         (countOlderThan (today.subDays days.toNat).format)).sum) ∧
    ((modifyMachine hostname
        (List.map (deleteOlderThan (today.subDays days.toNat).format)) md).lookup
      hostname = some (((md.lookup hostname).getD []).map
        (deleteOlderThan (today.subDays days.toNat).format))) ∧
    (∀ m, m ≠ hostname →
      (modifyMachine hostname
        (List.map (deleteOlderThan (today.subDays days.toNat).format)) md).lookup m =
        md.lookup m) ∧
    (∀ (cutoff : String) (p : Process) (d : String) (v : Nat),
      (d, v) ∈ (deleteOlderThan cutoff p).daily_usage ↔
        (d, v) ∈ p.daily_usage ∧ strLt d cutoff = false) ∧
    (∀ (cutoff : String) (p : Process),
      (deleteOlderThan cutoff p).daily_usage.length + countOlderThan cutoff p =
        p.daily_usage.length) ∧
    (∀ (cutoff : String) (p : Process),
      (deleteOlderThan cutoff p).title = p.title ∧
      (deleteOlderThan cutoff p).tags = p.tags ∧
      (deleteOlderThan cutoff p).last_seen = p.last_seen) := by
  refine ⟨?_, lookup_modifyMachine_self _ _ _, fun m hm => lookup_modifyMachine_other _ _ _ _ hm,
    ?_, ?_, fun cutoff p => ⟨rfl, rfl, rfl⟩⟩
  · simp [confirm_delete_store_duration, h]
  · intro cutoff p d v
    simp [deleteOlderThan, List.mem_filter]
  · intro cutoff p
    exact filter_length_add_countP p.daily_usage _

/-- Witness for C7, the spec's concrete scenario: a 3 day retention window
on 2024-01-10 gives the cutoff 2024-01-07; the entry of 2024-01-05 is
dropped, the entry of 2024-01-09 is kept, and 1 removed record is
reported. -/
theorem confirm_delete_store_duration_witness :
    parse_duration "3d" = Except.ok 3 ∧
    (Date.subDays (Date.mk 2024 1 10) 3).format = "2024-01-07" ∧
    confirm_delete_store_duration "L" (Date.mk 2024 1 10) "3d"
      [("L", [Process.mk "p" [("2024-01-05", 100), ("2024-01-09", 200)] [] "x"])] =
      Except.ok ([("L", [Process.mk "p" [("2024-01-09", 200)] [] "x"])], 1) := by
  have h := confirm_delete_store_duration_spec "L" (Date.mk 2024 1 10) "3d" 3
    [("L", [Process.mk "p" [("2024-01-05", 100), ("2024-01-09", 200)] [] "x"])]
    (by rfl)
  refine ⟨by rfl, by decide, ?_⟩
  rw [h.1]
  exact congrArg Except.ok (by decide)

/-- C8: a confirmed delete-all clears every current machine process's whole
ledger (its total usage becomes zero) while keeping titles, tags, the number
of process entries and every other machine's data unchanged. -/
theorem confirm_delete_store_all_spec (hostname : String) (md : MachineData) :
    ((confirm_delete_store_all hostname md).lookup hostname =
      some (((md.lookup hostname).getD []).map
        fun p => { p with daily_usage := ([] : List (String × Nat)) })) ∧
    (∀ m, m ≠ hostname →
      (confirm_delete_store_all hostname md).lookup m = md.lookup m) ∧
    (∀ ps : List Process,
      ((ps.map fun p => { p with daily_usage := ([] : List (String × Nat)) }).map
        Process.title = ps.map Process.title) ∧
      ((ps.map fun p => { p with daily_usage := ([] : List (String × Nat)) }).map
        Process.tags = ps.map Process.tags) ∧
      ((ps.map fun p => { p with daily_usage := ([] : List (String × Nat)) }).map
        Process.last_seen = ps.map Process.last_seen) ∧
      ((ps.map fun p => { p with daily_usage := ([] : List (String × Nat)) }).length =
        ps.length) ∧
      (∀ q ∈ ps.map fun p => { p with daily_usage := ([] : List (String × Nat)) },
        q.daily_usage = [] ∧ q.get_total_usage = 0)) := by
  refine ⟨lookup_modifyMachine_self _ _ _,
    fun m hm => lookup_modifyMachine_other _ _ _ _ hm, ?_⟩
  intro ps
  refine ⟨?_, ?_, ?_, by simp, ?_⟩
  · rw [List.map_map]; rfl
  · rw [List.map_map]; rfl
  · rw [List.map_map]; rfl
  · intro q hq
    rcases List.mem_map.mp hq with ⟨p, _, rfl⟩
    exact ⟨rfl, rfl⟩

/-- Witness for C8: deleting all on machine H clears H's ledgers and leaves
machine B untouched. -/
theorem confirm_delete_store_all_witness :
    (confirm_delete_store_all "H"
      [("H", [Process.mk "a" [("2024-01-01", 7)] ["t"] "2024-01-01"]),
       ("B", [Process.mk "b" [("2024-01-02", 9)] [] "2024-01-02"])]).lookup "H" =
      some [Process.mk "a" [] ["t"] "2024-01-01"] ∧
    (confirm_delete_store_all "H"
      [("H", [Process.mk "a" [("2024-01-01", 7)] ["t"] "2024-01-01"]),
       ("B", [Process.mk "b" [("2024-01-02", 9)] [] "2024-01-02"])]).lookup "B" =
      some [Process.mk "b" [("2024-01-02", 9)] [] "2024-01-02"] := by
  have h := confirm_delete_store_all_spec "H"
    [("H", [Process.mk "a" [("2024-01-01", 7)] ["t"] "2024-01-01"]),
     ("B", [Process.mk "b" [("2024-01-02", 9)] [] "2024-01-02"])]
  constructor
  · rw [h.1]
    decide
  · rw [h.2.1 "B" (by decide)]
    decide

/-- C10: `handle_tag_command` errors exactly when no process of the current
machine's list bears the requested title, and on that error path every
machine entry that existed before the call — in particular every stored
`Process` with its tags, ledger and title — is unchanged. -/
theorem handle_tag_command_spec (hostname : String) (md : MachineData)
    (process_name : String) (add_tags remove_tags : Option String) (list_tags : Bool) :
    ((∃ e, (handle_tag_command hostname md process_name add_tags remove_tags
        list_tags).1 = Except.error e) ↔
      ∀ p ∈ (md.lookup hostname).getD [], p.title ≠ process_name) ∧
    ((∀ p ∈ (md.lookup hostname).getD [], p.title ≠ process_name) →
      ∀ m l, md.lookup m = some l →
        ((handle_tag_command hostname md process_name add_tags remove_tags
          list_tags).2).lookup m = some l) := by
  have hcur : ((entryOrDefault hostname md).lookup hostname).getD [] =
      (md.lookup hostname).getD [] := lookup_entryOrDefault_getD hostname md
  have hnone : (∀ p ∈ (md.lookup hostname).getD [], p.title ≠ process_name) ↔
      (((entryOrDefault hostname md).lookup hostname).getD []).findIdx?
        (fun p => p.title == process_name) = none := by
    rw [List.findIdx?_eq_none_iff, hcur]
    constructor
    · intro h x hx
      simpa [beq_iff_eq] using h x hx
    · intro h x hx
      simpa [beq_iff_eq] using h x hx
  constructor
  · constructor
    · rintro ⟨e, he⟩
      rw [hnone]
      cases hidx : (((entryOrDefault hostname md).lookup hostname).getD []).findIdx?
          (fun p => p.title == process_name) with
      | none => rfl
      | some i =>
        simp only [handle_tag_command, hidx] at he
        cases he
    · intro h
      refine ⟨"error: process '" ++ process_name ++ "' not found", ?_⟩
      have hidx := hnone.mp h
      simp only [handle_tag_command, hidx]
  · intro h m l hml
    have hidx := hnone.mp h
    simp only [handle_tag_command, hidx]
    exact lookup_entryOrDefault_preserve hostname m md l hml

/-- Witness for C10: tagging a title absent from the store reports the
not-found error and preserves the stored machine entry. -/
theorem handle_tag_command_witness :
    (handle_tag_command "H" [("H", [Process.mk "a" [("2024-01-01", 3)] ["t"] "d"])]
      "zzz" (some "work") none false).1 =
      Except.error "error: process 'zzz' not found" ∧
    ((handle_tag_command "H" [("H", [Process.mk "a" [("2024-01-01", 3)] ["t"] "d"])]
      "zzz" (some "work") none false).2).lookup "H" =
      some [Process.mk "a" [("2024-01-01", 3)] ["t"] "d"] := by
  have h := handle_tag_command_spec "H"
    [("H", [Process.mk "a" [("2024-01-01", 3)] ["t"] "d"])] "zzz" (some "work") none false
  constructor
  · rfl
  · exact h.2 (by decide) "H" [Process.mk "a" [("2024-01-01", 3)] ["t"] "d"] (by decide)

end Laches
